import Mathlib

/-!
# ZANS Task Manager — verification of the task store and reminder engine

Shallow embedding of the converged draft of the bot's `index.js`
(`src/unnamed/part_002`, first document).  JavaScript values are modelled as
follows:

* strings are Lean `String`s; where the source manipulates individual
  characters (fuzzy search, duration parsing) we work on `String.data`,
  the underlying list of characters;
* the global `tasks` map (`Map` from user id to array of task records) is an
  association list `Store`; JS `Map` iteration order is insertion order, which
  the association list preserves;
* timestamps (`Date` values, ISO strings produced by `toISOString`) are
  modelled as integer milliseconds; comparing two `Date`s in JS compares the
  millisecond values, and the ISO rendering is order-isomorphic to them;
* task records are plain structures; early `return` with an error reply is
  modelled by returning the unchanged store paired with an `Err`;
* the persisted JSON state is exactly the value-level store, so a
  save-then-reload round-trip is the identity on `Store` — with the important
  consequence (visible in claims about multi-assignee tasks) that after a
  round-trip the N copies of a task stored in N assignee collections are
  value-independent records.
-/

namespace Zans

/-- One entry of a task's append-only `logs` array:
`{date: new Date().toISOString(), action}`. -/
structure LogEntry where
  date : Int
  action : String
  deriving DecidableEq, Repr

/-- A task record as created by the `task-create` / `task-assign` handlers. -/
structure Task where
  id : Nat
  title : String
  description : String
  /-- `due`: `null` or an ISO timestamp; modelled as optional milliseconds. -/
  due : Option Int
  status : String
  createdBy : String
  assignedTo : List String
  department : Option String
  logs : List LogEntry
  remindersSent : List String
  deriving DecidableEq, Repr

/-- The global `tasks` map: user id → array of task records, in insertion
order. -/
abbrev Store := List (String × List Task)

/-- `tasks.get(uid) || []` — the collection of an assignee, empty when the key
is absent. -/
def storeGet (store : Store) (uid : String) : List Task :=
  match store with
  | [] => []
  | (u, l) :: rest => if u = uid then l else storeGet rest uid

/-- `tasks.has(uid)`. -/
def storeHas (store : Store) (uid : String) : Bool :=
  match store with
  | [] => false
  | (u, _) :: rest => u == uid || storeHas rest uid

/-- `if(!tasks.has(uid)) tasks.set(uid,[]); tasks.get(uid).push(t)` — append a
task to an assignee's collection, creating the (new, last-inserted) key when
absent. -/
def storePush (store : Store) (uid : String) (t : Task) : Store :=
  match store with
  | [] => [(uid, [t])]
  | (u, l) :: rest =>
    if u = uid then (u, l ++ [t]) :: rest else (u, l) :: storePush rest uid t

/-- `tasks.get(uid)[i] = t` — overwrite position `i` of an assignee's
collection (used by the `task-update` write-back). -/
def storeSetAt (store : Store) (uid : String) (i : Nat) (t : Task) : Store :=
  match store with
  | [] => []
  | (u, l) :: rest =>
    if u = uid then (u, l.set i t) :: rest else (u, l) :: storeSetAt rest uid i t

/-- The task sitting at coordinate `(uid, i)`, when it exists. -/
def taskAt? (store : Store) (uid : String) (i : Nat) : Option Task :=
  (storeGet store uid)[i]?

/-- All `(userId, task)` pairs in scan order: outer loop over the map entries,
inner loop over each collection.  This is the iteration order of both
`getAllTasksUnique` and `findTaskById`. -/
def flattenStore (store : Store) : List (String × Task) :=
  store.flatMap (fun p => p.2.map (fun t => (p.1, t)))

/-- `getAllTasksUnique()`, inner loop: walk the flattened store carrying the
`seen` set of ids; a task whose id is already seen is skipped, otherwise it is
emitted (tagged with the collection's `userId`) and its id recorded. -/
def uniqueAux (seen : List Nat) : List (String × Task) → List (String × Task)
  | [] => []
  | (uid, t) :: rest =>
    if t.id ∈ seen then uniqueAux seen rest
    else (uid, t) :: uniqueAux (t.id :: seen) rest

/-- `getAllTasksUnique()` — deduplicate all assignee collections by task id,
first occurrence wins, each survivor tagged with the assignee whose collection
it was found in. -/
def getAllTasksUnique (store : Store) : List (String × Task) :=
  uniqueAux [] (flattenStore store)

/-- Specification-side description of first-occurrence deduplication: keep the
head and recursively drop every later pair carrying the same task id. -/
def firstOccurrences : List (String × Task) → List (String × Task)
  | [] => []
  | (uid, t) :: rest =>
    (uid, t) :: firstOccurrences (rest.filter (fun p => p.2.id ≠ t.id))
  termination_by l => l.length
  decreasing_by
    simp only [List.length_cons]
    exact Nat.lt_succ_of_le (List.length_filter_le _ _)

/-! ## Reminder-window duration parser (`parseWindowToMinutes`) -/

/-- JS `String.prototype.trim()` on the underlying character list. -/
def jsTrim (s : List Char) : List Char :=
  ((s.dropWhile Char.isWhitespace).reverse.dropWhile Char.isWhitespace).reverse

/-- JS `String.prototype.toLowerCase()` (ASCII range, which covers the
window suffix characters). -/
def jsToLower (s : List Char) : List Char := s.map Char.toLower

/-- JS `s.endsWith(c)` for a one-character suffix: the last character is `c`. -/
def endsWithChar (s : List Char) (c : Char) : Bool := s.getLast? == some c

/-- The decimal value of a digit string (folding left, as positional
notation). -/
def digitsVal (ds : List Char) : Nat := ds.foldl (fun a c => a * 10 + (c.toNat - 48)) 0

/-- JS `parseFloat` restricted to the inputs this program feeds it: the value
of the maximal leading run of decimal digits, `none` standing for `NaN` when
there is no leading digit.  (Numeric magnitudes are modelled as naturals;
fractional magnitudes never occur in the claims.) -/
def parseNatLead (s : List Char) : Option Nat :=
  let ds := s.takeWhile Char.isDigit
  if ds.isEmpty then none else some (digitsVal ds)

/-- `parseWindowToMinutes(s)`: `null` for an empty string, otherwise trim and
lowercase, then dispatch on the final character — `h` scales by 60, `m` is
taken as minutes, `d` scales by 60·24, and anything else (no recognized
suffix) scales by 60. -/
def parseWindowCore (cs : List Char) : Option Nat :=
  if endsWithChar cs 'h' then (parseNatLead cs).map (· * 60)
  else if endsWithChar cs 'm' then parseNatLead cs
  else if endsWithChar cs 'd' then (parseNatLead cs).map (fun n => n * 60 * 24)
  else (parseNatLead cs).map (· * 60)

def parseWindowToMinutes (s : String) : Option Nat :=
  if s.data.isEmpty then none
  else parseWindowCore (jsToLower (jsTrim s.data))

/-! ## Fuzzy search (`fuzzySearchTasks`) -/

/-- JS `hay.includes(pat)` — substring containment: `pat` occurs contiguously
inside `hay` (the empty pattern is always contained). -/
def containsSub (hay pat : List Char) : Bool :=
  match hay with
  | [] => pat.isEmpty
  | _ :: rest => pat.isPrefixOf hay || containsSub rest pat

/-- The scoring step of `fuzzySearchTasks` for one task against the (already
lowercased) query: exact title match +100, title substring match +50,
description substring match +20, plus one point for every character of the
query (an occurrence each) that appears in the lowercased title. -/
def scoreTask (q : List Char) (t : Task) : Nat :=
  let title := jsToLower t.title.data
  let desc := jsToLower t.description.data
  (if title = q then 100 else 0) +
  (if containsSub title q then 50 else 0) +
  (if containsSub desc q then 20 else 0) +
  ((q.filter (fun ch => containsSub title [ch])).length)

/-- One step of the stable descending insertion used to model
`sort((a,b)=>b.score-a.score)` (ECMAScript sorts are stable; the stable
descending reordering of a list is unique, and insertion in scan order that
skips over earlier elements with `≥` score produces exactly it). -/
def insertDesc (x : (String × Task) × Nat) :
    List ((String × Task) × Nat) → List ((String × Task) × Nat)
  | [] => [x]
  | y :: ys => if y.2 ≥ x.2 then y :: insertDesc x ys else x :: y :: ys

/-- Stable sort by descending score: fold the scored list in scan order into
an insertion-sorted accumulator. -/
def stableSortDesc (l : List ((String × Task) × Nat)) :
    List ((String × Task) × Nat) :=
  l.foldl (fun acc x => insertDesc x acc) []

/-- `fuzzySearchTasks(query, limit)`: lowercase the query, score every entry
of `getAllTasksUnique()`, keep positive scores, sort by descending score
(stable), truncate to `limit`, and return the tasks. -/
def fuzzySearchTasks (query : String) (limit : Nat) (store : Store) :
    List (String × Task) :=
  let q := jsToLower query.data
  let scored := (getAllTasksUnique store).map (fun p => (p, scoreTask q p.2))
  ((stableSortDesc (scored.filter (fun x => x.2 > 0))).take limit).map
    (fun x => x.1)

/-- Scoring as the claim words it: identical to `scoreTask` except that the
character bonus is one point per **distinct** query character present in the
title. -/
def claimScore (q : List Char) (t : Task) : Nat :=
  let title := jsToLower t.title.data
  let desc := jsToLower t.description.data
  (if title = q then 100 else 0) +
  (if containsSub title q then 50 else 0) +
  (if containsSub desc q then 20 else 0) +
  ((q.dedup.filter (fun ch => containsSub title [ch])).length)

/-- The search pipeline with the claim's distinct-character scoring, used to
compare the claim's description against the code. -/
def fuzzySearchSpecClaim (query : String) (limit : Nat) (store : Store) :
    List (String × Task) :=
  let q := jsToLower query.data
  let scored := (getAllTasksUnique store).map (fun p => (p, claimScore q p.2))
  ((stableSortDesc (scored.filter (fun x => x.2 > 0))).take limit).map
    (fun x => x.1)

/-- Scoring as the amended claim words it: the character bonus counts the
query characters (with multiplicity) whose character appears in the title. -/
def amendedScore (q : List Char) (t : Task) : Nat :=
  let title := jsToLower t.title.data
  let desc := jsToLower t.description.data
  (if title = q then 100 else 0) +
  (if containsSub title q then 50 else 0) +
  (if containsSub desc q then 20 else 0) +
  (q.countP (fun ch => containsSub title [ch]))

/-- The search pipeline with the amended claim's scoring: filter positive
scores, stable-sort descending, truncate. -/
def fuzzySearchSpecAmended (query : String) (limit : Nat) (store : Store) :
    List (String × Task) :=
  let q := jsToLower query.data
  let scored := (getAllTasksUnique store).map (fun p => (p, amendedScore q p.2))
  ((stableSortDesc (scored.filter (fun x => x.2 > 0))).take limit).map
    (fun x => x.1)

/-- A minimal task record used by concrete examples: `Pending`, no due date,
one assignee, one creation log entry, no reminders sent. -/
def mkTask (id : Nat) (title description : String) (uid : String) : Task :=
  { id := id, title := title, description := description, due := none,
    status := "Pending", createdBy := uid, assignedTo := [uid],
    department := none, logs := [⟨0, "Created"⟩], remindersSent := [] }


/-! ## Task assignment (`task-assign` handler) -/

/-- The error taxonomy of the command layer; each constructor corresponds to
one of the handler's early-return replies (`Task not found` / `Invalid
index` / `Invalid global index`, `You are not assigned to this task`,
`Invalid status`, `No users to assign`). -/
inductive Err where
  | notFound
  | forbidden
  | invalidStatus
  | emptyAssignment
  deriving DecidableEq, Repr

/-- The `departments` object: department name → member id list. -/
abbrev Departments := List (String × List String)

/-- `departments[name]` — `none` when the key is absent (an existing
department with an empty member list is still "truthy" in the source and is
returned as `some []`). -/
def deptLookup (departments : Departments) (name : String) :
    Option (List String) :=
  match departments with
  | [] => none
  | (n, ms) :: rest => if n = name then some ms else deptLookup rest name

/-- `[...new Set(assigned)]`, inner loop: JS `Set` insertion preserves first
occurrences in iteration order. -/
def jsSetDedupAux (seen : List String) : List String → List String
  | [] => []
  | x :: xs =>
    if x ∈ seen then jsSetDedupAux seen xs
    else x :: jsSetDedupAux (x :: seen) xs

/-- `[...new Set(assigned)]` — deduplicate keeping the first occurrence of
each id in order. -/
def jsSetDedup (l : List String) : List String := jsSetDedupAux [] l

/-- The department-expansion step of `/task-assign`: the member ids to append
and the department tag to record — both only when the named department exists
in `departments`. -/
def deptExtra (department : Option String) (departments : Departments) :
    List String × Option String :=
  match department with
  | none => ([], none)
  | some d =>
    match deptLookup departments d with
    | some ms => (ms, some d)
    | none => ([], none)

/-- The task record built by `/task-assign` on success. -/
def assignedTask (username title description : String) (due : Option Int)
    (assigned : List String) (deptTag : Option String) (id : Nat) (now : Int) :
    Task :=
  { id := id, title := title, description := description, due := due,
    status := "Pending", createdBy := username, assignedTo := assigned,
    department := deptTag, logs := [⟨now, "Assigned by " ++ username⟩],
    remindersSent := [] }

/-- The tail of the `/task-assign` handler, after the assignee set has been
resolved and deduplicated: reply `No users to assign` when it is empty,
otherwise build the task and push it into every resolved assignee's
collection. -/
def taskAssignCore (username title description : String) (due : Option Int)
    (assigned : List String) (deptTag : Option String) (id : Nat) (now : Int)
    (store : Store) : Store × Except Err Task :=
  if assigned.isEmpty then (store, .error .emptyAssignment)
  else
    (assigned.foldl
        (fun st uid => storePush st uid
          (assignedTask username title description due assigned deptTag id now))
        store,
      .ok (assignedTask username title description due assigned deptTag id now))

/-- The `/task-assign` handler: refuse non-privileged actors; resolve the
assignee set as the explicit user ids plus the members of the named department
when it exists (which also sets the task's department tag); deduplicate with
`new Set`; then run the core. -/
def taskAssign (priv : Bool) (username : String) (title description : String)
    (due : Option Int) (department : Option String) (users : List String)
    (departments : Departments) (id : Nat) (now : Int) (store : Store) :
    Store × Except Err Task :=
  match priv with
  | false => (store, .error .forbidden)
  | true =>
    taskAssignCore username title description due
      (jsSetDedup (users ++ (deptExtra department departments).1))
      (deptExtra department departments).2 id now store

/-! ## Status update (`task-update` handler) -/

/-- JS truthiness of the optional integer `index` option: absent or `0` is
falsy. -/
def truthyIndex (index? : Option Int) : Bool :=
  match index? with
  | none => false
  | some n => !(n == 0)

/-- `list.findIndex(t => String(t.id) === String(id))`, carrying the running
index. -/
def findIdxAux (id : Nat) (i : Nat) : List Task → Option (Nat × Task)
  | [] => none
  | t :: ts => if t.id = id then some (i, t) else findIdxAux id (i + 1) ts

/-- `findTaskById(id)` — the `(userId, index, task)` triple of the first
occurrence of the id, scanning assignee collections in map insertion order. -/
def findTaskById (store : Store) (id : Nat) : Option (String × Nat × Task) :=
  match store with
  | [] => none
  | (u, l) :: rest =>
    match findIdxAux id 0 l with
    | some (i, t) => some (u, i, t)
    | none => findTaskById rest id

/-- Target resolution of `/task-update` (and `/task-delete`): by id when the
`id` option is truthy and found; otherwise by global positional index into
`getAllTasksUnique()` for privileged callers with a truthy `index`; otherwise
by positional index into the caller's own collection.  Out-of-range and
missing indices reply `Invalid (global) index` / `Task not found`, all mapped
to `Err.notFound`. -/
def resolveTarget (priv : Bool) (userId : String) (id? : Option Nat)
    (index? : Option Int) (store : Store) : Except Err (String × Nat × Task) :=
  match (match id? with | some i => findTaskById store i | none => none) with
  | some f => .ok f
  | none =>
    if truthyIndex index? && priv then
      match index? with
      | none => .error .notFound
      | some n =>
        if n < 1 ∨ n > ((getAllTasksUnique store).length : Int) then
          .error .notFound
        else
          match (getAllTasksUnique store)[(n.toNat - 1)]? with
          | some p =>
            match findTaskById store p.2.id with
            | some f => .ok f
            | none => .error .notFound
          | none => .error .notFound
    else
      match index? with
      | none => .error .notFound
      | some n =>
        if n < 1 ∨ n > ((storeGet store userId).length : Int) then
          .error .notFound
        else
          match (storeGet store userId)[(n.toNat - 1)]? with
          | some t => .ok (userId, n.toNat - 1, t)
          | none => .error .notFound

/-- `['Pending','In Progress','Done','Blocked','Overdue']`. -/
def validStatuses : List String :=
  ["Pending", "In Progress", "Done", "Blocked", "Overdue"]

/-- The mutation `/task-update` applies on success: set the status and append
the `Status set to … by …` log entry. -/
def updatedTask (t : Task) (status username : String) (now : Int) : Task :=
  { t with
    status := status,
    logs := t.logs ++ [⟨now, "Status set to " ++ status ++ " by " ++ username⟩] }

/-- The `/task-update` handler: resolve the target, check the assignment
relation for non-privileged callers, validate the status, then mutate the
record and write it back at the exact coordinate it was resolved from. -/
def taskUpdate (priv : Bool) (userId username : String) (id? : Option Nat)
    (index? : Option Int) (status : String) (now : Int) (store : Store) :
    Store × Except Err Unit :=
  match resolveTarget priv userId id? index? store with
  | .error e => (store, .error e)
  | .ok (uid, i, t) =>
    if priv = false ∧ userId ∉ t.assignedTo then (store, .error .forbidden)
    else if status ∉ validStatuses then (store, .error .invalidStatus)
    else (storeSetAt store uid i (updatedTask t status username now), .ok ())


/-! ## Start-up reconciliation (`ClientReady` handler) -/

/-- The start-up pass on one task: a task with a due date, not `Done`, whose
due date is in the past and whose status is not already `Overdue`, is set to
`Overdue` with an appended `Auto-marked overdue on startup` log entry; every
other task is untouched. -/
def markOverdue (now : Int) (t : Task) : Task :=
  match t.due with
  | none => t
  | some due =>
    if t.status ≠ "Done" ∧ due < now ∧ t.status ≠ "Overdue" then
      { t with
        status := "Overdue",
        logs := t.logs ++ [⟨now, "Auto-marked overdue on startup"⟩] }
    else t

/-- The start-up reconciliation over the whole store: scan every task of every
assignee collection. -/
def startupReconcile (now : Int) (store : Store) : Store :=
  store.map (fun p => (p.1, p.2.map (markOverdue now)))

/-! ## Backup rotation (`backupFile`) -/

/-- `config.backupRetention || 10`. -/
def effectiveRetention (cfg : Nat) : Nat := if cfg = 0 then 10 else cfg

/-- One `backupFile` invocation for a single state key.  Backup file names are
`base.<ISO timestamp with : and . replaced>-…bak.json`; the timestamp format
is fixed-width, so lexicographic name order is chronological order, and names
are modelled as the integer timestamps themselves.  The directory listing for
the key is kept as a chronologically ordered list: the new backup is copied
in, and when the count exceeds the retention the oldest excess names
(ascending sort order) are deleted. -/
def backupStep (keep : Nat) (state : List Nat) (name : Nat) : List Nat :=
  if keep < (state ++ [name]).length then
    ((state ++ [name]).insertionSort (· ≤ ·)).drop ((state ++ [name]).length - keep)
  else state ++ [name]

/-- A sequence of `backupFile` invocations for one key, starting from an empty
backup area. -/
def runBackups (keep : Nat) (names : List Nat) : List Nat :=
  names.foldl (backupStep keep) []

/-! ## Task creation (`task-create` handler) -/

/-- `parseDue(dateStr)`: a missing or empty string is `null`; otherwise the
runtime's date parser is consulted (modelled as the function argument
`jsDateParse`, returning `none` exactly when `new Date(dateStr)` is an
`Invalid Date`), and an unparseable date also yields `null`. -/
def parseDue (jsDateParse : String → Option Int) (due? : Option String) :
    Option Int :=
  match due? with
  | none => none
  | some s => if s.data.isEmpty then none else jsDateParse s

/-- The task record built by `/task-create`. -/
def createdTask (userId username title description : String) (due : Option Int)
    (id : Nat) (now : Int) : Task :=
  { id := id, title := title, description := description, due := due,
    status := "Pending", createdBy := username, assignedTo := [userId],
    department := none, logs := [⟨now, "Created"⟩], remindersSent := [] }

/-- The `/task-create` handler: build the task and push it onto the creator's
collection; there is no failure path. -/
def taskCreate (userId username title description : String) (due : Option Int)
    (id : Nat) (now : Int) (store : Store) : Store × Task :=
  (storePush store userId (createdTask userId username title description due id now),
    createdTask userId username title description due id now)

/-! ## Recurring reminder scan (`scheduleReminders`) -/

/-- The record mutation applied when the overdue threshold fires: record
`"overdue"` and append the `Overdue reminder sent` log entry. -/
def overdueTask (t : Task) (now : Int) : Task :=
  { t with
    remindersSent := t.remindersSent ++ ["overdue"],
    logs := t.logs ++ [⟨now, "Overdue reminder sent"⟩] }

/-- The overdue branch of the scan body for one task: when the due date is
strictly in the past and `"overdue"` has not been recorded, record it, notify
every assignee, and append the log entry.  The second component lists the
threshold keys fired. -/
def overdueStep (due now : Int) (t : Task) : Task × List String :=
  if due - now < 0 ∧ "overdue" ∉ t.remindersSent then
    (overdueTask t now, ["overdue"])
  else (t, [])

/-- The record mutation applied when window `key` fires: record the key and
append the `Reminder (key) sent` log entry. -/
def firedTask (t : Task) (key : String) (now : Int) : Task :=
  { t with
    remindersSent := t.remindersSent ++ [key],
    logs := t.logs ++ [⟨now, "Reminder (" ++ key ++ ") sent"⟩] }

/-- The window loop of the scan body for one task: for each configured window
`(key, minutes)` in order, skip keys already recorded; when the task is not
yet due and due within the window (`0 < due − now ≤ minutes`, in
milliseconds), record the key, notify every assignee, and append the
`Reminder (key) sent` log entry. -/
def scanWindows (due now : Int) :
    List (String × Nat) → Task → Task × List String
  | [], t => (t, [])
  | (key, mins) :: ws, t =>
    if key ∈ t.remindersSent then scanWindows due now ws t
    else if 0 < due - now ∧ due - now ≤ (mins : Int) * 60000 then
      ((scanWindows due now ws (firedTask t key now)).1,
        key :: (scanWindows due now ws (firedTask t key now)).2)
    else scanWindows due now ws t

/-- The scan body for one stored task entry: tasks with no due date or status
`Done` are skipped entirely; otherwise the overdue branch runs first, then the
window loop.  Returns the updated entry and the threshold keys fired for it. -/
def scanTask (windows : List (String × Nat)) (now : Int) (t : Task) :
    Task × List String :=
  match t.due with
  | none => (t, [])
  | some due =>
    if t.status = "Done" then (t, [])
    else
      ((scanWindows due now windows (overdueStep due now t).1).1,
        (overdueStep due now t).2 ++
          (scanWindows due now windows (overdueStep due now t).1).2)

/-- One full scan cycle over the store: every task of every assignee
collection is scanned independently (the loop iterates `tasks.entries()`
directly, not the deduplicated view). -/
def scanStore (windows : List (String × Nat)) (now : Int) (store : Store) :
    Store :=
  store.map (fun p => (p.1, p.2.map (fun t => (scanTask windows now t).1)))

/-- The `(task id, threshold key)` pairs fired during one scan cycle, one
entry per notification-burst per stored copy. -/
def cycleFired (windows : List (String × Nat)) (now : Int) (store : Store) :
    List (Nat × String) :=
  (flattenStore store).flatMap
    (fun p => ((scanTask windows now p.2).2).map (fun k => (p.2.id, k)))


lemma isWhitespace_eq_false_of_isDigit {c : Char} (h : c.isDigit = true) :
    c.isWhitespace = false := by
  cases hw : c.isWhitespace
  · rfl
  · exfalso
    simp [Char.isWhitespace] at hw
    rcases hw with ((rfl | rfl) | rfl) | rfl <;> exact absurd h (by decide)

lemma toLower_of_isDigit {c : Char} (h : c.isDigit = true) : c.toLower = c := by
  simp [Char.isDigit] at h
  unfold Char.toLower
  rw [if_neg]
  rintro ⟨h1, h2⟩
  simp [Char.toNat] at h1 h2
  have ha : c.val.toNat ≥ 48 := h.1
  have hb : c.val.toNat ≤ 57 := h.2
  omega

lemma beq_eq_false_of_isDigit {c d : Char} (h : c.isDigit = true)
    (hd : d.isDigit = false) : (c == d) = false := by
  cases he : c == d
  · rfl
  · exfalso
    have hcd : c = d := beq_iff_eq.mp he
    subst hcd
    rw [h] at hd
    exact Bool.noConfusion hd

lemma dropWhile_eq_self_of_false {p : Char → Bool} :
    ∀ {l : List Char}, (∀ c ∈ l, p c = false) → l.dropWhile p = l
  | [], _ => rfl
  | c :: cs, h => by
    rw [List.dropWhile_cons, h c (List.mem_cons_self c cs)]
    simp

lemma takeWhile_append_last {p : Char → Bool} :
    ∀ {l : List Char} {c : Char}, (∀ x ∈ l, p x = true) → p c = false →
      (l ++ [c]).takeWhile p = l
  | [], c, _, hc => by simp [List.takeWhile_cons, hc]
  | x :: xs, c, h, hc => by
    rw [List.cons_append, List.takeWhile_cons, h x (List.mem_cons_self x xs)]
    simp [takeWhile_append_last (fun y hy => h y (List.mem_cons_of_mem x hy)) hc]

lemma jsTrim_eq_self {l : List Char} (h : ∀ c ∈ l, c.isWhitespace = false) :
    jsTrim l = l := by
  unfold jsTrim
  rw [dropWhile_eq_self_of_false h,
    dropWhile_eq_self_of_false (fun c hc => h c (List.mem_reverse.mp hc)),
    List.reverse_reverse]

lemma jsToLower_eq_self {l : List Char} (h : ∀ c ∈ l, c.toLower = c) :
    jsToLower l = l := by
  unfold jsToLower
  induction l with
  | nil => rfl
  | cons x xs ih =>
    rw [List.map_cons, h x (List.mem_cons_self x xs),
      ih (fun c hc => h c (List.mem_cons_of_mem x hc))]

/-- Normalisation step of `parseWindowToMinutes` on an all-digit magnitude
followed by a lowercase non-digit suffix: trimming and lowercasing leave the
characters unchanged. -/
lemma normalize_digits_suffix {ds : List Char} {c : Char}
    (hds : ∀ x ∈ ds, x.isDigit = true) (hc : c.isWhitespace = false)
    (hcl : c.toLower = c) :
    jsToLower (jsTrim (ds ++ [c])) = ds ++ [c] := by
  rw [jsTrim_eq_self, jsToLower_eq_self]
  · intro x hx
    rcases List.mem_append.mp hx with hx | hx
    · exact toLower_of_isDigit (hds x hx)
    · rw [List.mem_singleton.mp hx]; exact hcl
  · intro x hx
    rcases List.mem_append.mp hx with hx | hx
    · exact isWhitespace_eq_false_of_isDigit (hds x hx)
    · rw [List.mem_singleton.mp hx]; exact hc

lemma parseNatLead_digits_suffix {ds : List Char} {c : Char} (hne : ds ≠ [])
    (hds : ∀ x ∈ ds, x.isDigit = true) (hc : c.isDigit = false) :
    parseNatLead (ds ++ [c]) = some (digitsVal ds) := by
  unfold parseNatLead
  rw [takeWhile_append_last hds hc]
  simp [List.isEmpty_iff, hne]

lemma takeWhile_eq_self_of_true {p : Char → Bool} :
    ∀ {l : List Char}, (∀ x ∈ l, p x = true) → l.takeWhile p = l
  | [], _ => rfl
  | x :: xs, h => by
    rw [List.takeWhile_cons, h x (List.mem_cons_self x xs)]
    simp [takeWhile_eq_self_of_true (fun y hy => h y (List.mem_cons_of_mem x hy))]

lemma endsWithChar_append {l : List Char} {c d : Char} :
    endsWithChar (l ++ [c]) d = (c == d) := by
  unfold endsWithChar
  rw [List.getLast?_concat]
  cases he : c == d
  · simp [beq_eq_false_iff_ne.mp he]
  · simp [beq_iff_eq.mp he]

lemma endsWithChar_digits {ds : List Char} {d : Char} (hne : ds ≠ [])
    (hds : ∀ x ∈ ds, x.isDigit = true) (hd : d.isDigit = false) :
    endsWithChar ds d = false := by
  unfold endsWithChar
  rw [List.getLast?_eq_getLast ds hne]
  have hmem := List.getLast_mem hne
  simpa using beq_eq_false_of_isDigit (hds _ hmem) hd

lemma uniqueAux_eq_firstOccurrences_filter (n : Nat) :
    ∀ (l : List (String × Task)) (seen : List Nat), l.length ≤ n →
      uniqueAux seen l = firstOccurrences (l.filter (fun p => p.2.id ∉ seen)) := by
  induction n with
  | zero =>
    intro l seen hl
    rw [List.length_eq_zero.mp (Nat.le_zero.mp hl)]
    simp [uniqueAux, firstOccurrences]
  | succ n ih =>
    intro l seen hl
    match l with
    | [] => simp [uniqueAux, firstOccurrences]
    | (uid, t) :: rest =>
      have hrest : rest.length ≤ n := Nat.le_of_succ_le_succ hl
      by_cases h : t.id ∈ seen
      · rw [show uniqueAux seen ((uid, t) :: rest) = uniqueAux seen rest by
          simp [uniqueAux, h]]
        rw [ih rest seen hrest]
        congr 1
        simp [List.filter_cons, h]
      · rw [show uniqueAux seen ((uid, t) :: rest) =
            (uid, t) :: uniqueAux (t.id :: seen) rest by simp [uniqueAux, h]]
        rw [ih rest (t.id :: seen) hrest]
        have hcons :
            ((uid, t) :: rest).filter (fun p => p.2.id ∉ seen) =
            (uid, t) :: rest.filter (fun p => p.2.id ∉ seen) := by
          simp [List.filter_cons, h]
        rw [hcons, firstOccurrences]
        congr 1
        rw [List.filter_filter]
        congr 1
        apply List.filter_congr
        intro p _
        by_cases hp : p.2.id = t.id
        · simp [hp, h]
        · by_cases hs : p.2.id ∈ seen <;> simp [hp, hs]

lemma uniqueAux_eq_firstOccurrences (l : List (String × Task)) :
    uniqueAux [] l = firstOccurrences l := by
  rw [uniqueAux_eq_firstOccurrences_filter l.length l [] le_rfl]
  congr 1
  simp

lemma firstOccurrences_sublist (l : List (String × Task)) :
    (firstOccurrences l).Sublist l := by
  induction l using firstOccurrences.induct with
  | case1 => simp [firstOccurrences]
  | case2 uid t rest ih =>
    rw [firstOccurrences]
    exact List.Sublist.cons₂ _ (ih.trans (List.filter_sublist rest))

lemma firstOccurrences_ids_nodup (l : List (String × Task)) :
    ((firstOccurrences l).map (fun p => p.2.id)).Nodup := by
  induction l using firstOccurrences.induct with
  | case1 => simp [firstOccurrences]
  | case2 uid t rest ih =>
    rw [firstOccurrences]
    simp only [List.map_cons, List.nodup_cons]
    refine ⟨fun hmem => ?_, ih⟩
    obtain ⟨p, hp, hid⟩ := List.mem_map.mp hmem
    have hp' : p ∈ rest.filter (fun q => q.2.id ≠ t.id) :=
      (firstOccurrences_sublist _).subset hp
    have := List.of_mem_filter hp'
    simp only [decide_not, Bool.not_eq_true', decide_eq_false_iff_not] at this
    exact this hid

lemma firstOccurrences_mem_ids (l : List (String × Task)) (i : Nat) :
    (∃ p ∈ firstOccurrences l, p.2.id = i) ↔ (∃ p ∈ l, p.2.id = i) := by
  induction l using firstOccurrences.induct with
  | case1 => simp [firstOccurrences]
  | case2 uid t rest ih =>
    rw [firstOccurrences]
    simp only [List.mem_cons]
    constructor
    · rintro ⟨p, hp | hp, hid⟩
      · exact ⟨p, Or.inl hp, by rw [hp] at hid ⊢; exact hid⟩
      · obtain ⟨q, hq, hqid⟩ := ih.mp ⟨p, hp, hid⟩
        exact ⟨q, Or.inr (List.mem_of_mem_filter hq), hqid⟩
    · rintro ⟨p, hp | hp, hid⟩
      · exact ⟨(uid, t), Or.inl rfl, by rw [hp] at hid; exact hid⟩
      · by_cases ht : p.2.id = t.id
        · exact ⟨(uid, t), Or.inl rfl, ht ▸ hid⟩
        · obtain ⟨q, hq, hqid⟩ :=
            ih.mpr ⟨p, List.mem_filter.mpr ⟨hp, by simpa using ht⟩, hid⟩
          exact ⟨q, Or.inr hq, hqid⟩

lemma mem_jsSetDedupAux {x : String} :
    ∀ {seen l : List String}, x ∈ jsSetDedupAux seen l ↔ (x ∈ l ∧ x ∉ seen)
  | seen, [] => by simp [jsSetDedupAux]
  | seen, y :: ys => by
    by_cases hy : y ∈ seen
    · rw [jsSetDedupAux, if_pos hy, mem_jsSetDedupAux]
      constructor
      · rintro ⟨h1, h2⟩
        exact ⟨List.mem_cons_of_mem y h1, h2⟩
      · rintro ⟨h1, h2⟩
        rcases List.mem_cons.mp h1 with rfl | h1
        · exact absurd hy h2
        · exact ⟨h1, h2⟩
    · rw [jsSetDedupAux, if_neg hy, List.mem_cons, mem_jsSetDedupAux]
      constructor
      · rintro (rfl | ⟨h1, h2⟩)
        · exact ⟨List.mem_cons_self _ _, hy⟩
        · refine ⟨List.mem_cons_of_mem y h1, fun hx => h2 (List.mem_cons_of_mem y hx)⟩
      · rintro ⟨h1, h2⟩
        by_cases hxy : x = y
        · exact Or.inl hxy
        · rcases List.mem_cons.mp h1 with rfl | h1
          · exact Or.inl rfl
          · refine Or.inr ⟨h1, fun hx => ?_⟩
            rcases List.mem_cons.mp hx with rfl | hx
            · exact hxy rfl
            · exact h2 hx

lemma nodup_jsSetDedupAux :
    ∀ (seen l : List String), (jsSetDedupAux seen l).Nodup
  | seen, [] => List.nodup_nil
  | seen, y :: ys => by
    by_cases hy : y ∈ seen
    · rw [jsSetDedupAux, if_pos hy]
      exact nodup_jsSetDedupAux seen ys
    · rw [jsSetDedupAux, if_neg hy, List.nodup_cons]
      refine ⟨fun hmem => ?_, nodup_jsSetDedupAux (y :: seen) ys⟩
      exact (mem_jsSetDedupAux.mp hmem).2 (List.mem_cons_self _ _)

lemma mem_jsSetDedup {x : String} {l : List String} :
    x ∈ jsSetDedup l ↔ x ∈ l := by
  rw [jsSetDedup, mem_jsSetDedupAux]
  simp

lemma nodup_jsSetDedup (l : List String) : (jsSetDedup l).Nodup :=
  nodup_jsSetDedupAux [] l

lemma jsSetDedup_nil_iff {l : List String} : jsSetDedup l = [] ↔ l = [] := by
  cases l with
  | nil => simp [jsSetDedup, jsSetDedupAux]
  | cons x xs =>
    simp only [jsSetDedup, jsSetDedupAux, List.not_mem_nil, if_neg]
    constructor
    · intro h
      exact absurd h (by simp)
    · intro h
      exact List.noConfusion h

/-- Membership in the department-expansion extra list. -/
lemma mem_deptExtra {x : String} {department : Option String}
    {departments : Departments} :
    x ∈ (deptExtra department departments).1 ↔
      ∃ d ∈ department, ∃ ms ∈ deptLookup departments d, x ∈ ms := by
  match department with
  | none => simp [deptExtra]
  | some d =>
    match hms : deptLookup departments d with
    | some ms => simp [deptExtra, hms]
    | none => simp [deptExtra, hms]

lemma storeGet_storeSetAt_ne {store : Store} {uid uid' : String} {i : Nat}
    {t : Task} (h : uid' ≠ uid) :
    storeGet (storeSetAt store uid i t) uid' = storeGet store uid' := by
  induction store with
  | nil => rfl
  | cons hd rest ih =>
    obtain ⟨u, l⟩ := hd
    by_cases hu : u = uid
    · rw [storeSetAt, if_pos hu, storeGet, if_neg (by rw [hu]; exact fun e => h e.symm),
        storeGet, if_neg (by rw [hu]; exact fun e => h e.symm)]
    · rw [storeSetAt, if_neg hu]
      by_cases hu' : u = uid'
      · rw [storeGet, if_pos hu', storeGet, if_pos hu']
      · rw [storeGet, if_neg hu', storeGet, if_neg hu']
        exact ih

lemma storeGet_storeSetAt_self {store : Store} {uid : String} {i : Nat}
    {t : Task} :
    storeGet (storeSetAt store uid i t) uid = (storeGet store uid).set i t := by
  induction store with
  | nil => rfl
  | cons hd rest ih =>
    obtain ⟨u, l⟩ := hd
    by_cases hu : u = uid
    · rw [storeSetAt, if_pos hu, storeGet, if_pos hu, storeGet, if_pos hu]
    · rw [storeSetAt, if_neg hu, storeGet, if_neg hu, storeGet, if_neg hu]
      exact ih

lemma taskUpdate_error {priv : Bool} {userId username : String}
    {id? : Option Nat} {index? : Option Int} {status : String} {now : Int}
    {store : Store} {e : Err}
    (hres : resolveTarget priv userId id? index? store = Except.error e) :
    taskUpdate priv userId username id? index? status now store =
      (store, Except.error e) := by
  rw [taskUpdate, hres]

lemma taskUpdate_resolved {priv : Bool} {userId username : String}
    {id? : Option Nat} {index? : Option Int} {status : String} {now : Int}
    {store : Store} {uid : String} {i : Nat} {t : Task}
    (hres : resolveTarget priv userId id? index? store = Except.ok (uid, i, t)) :
    taskUpdate priv userId username id? index? status now store =
      (if priv = false ∧ userId ∉ t.assignedTo then
        (store, Except.error Err.forbidden)
      else if status ∉ validStatuses then (store, Except.error Err.invalidStatus)
      else (storeSetAt store uid i (updatedTask t status username now),
        Except.ok ())) := by
  rw [taskUpdate, hres]

lemma markOverdue_idem (now : Int) (t : Task) :
    markOverdue now (markOverdue now t) = markOverdue now t := by
  match hdue : t.due with
  | none => simp [markOverdue, hdue]
  | some due =>
    by_cases hc : t.status ≠ "Done" ∧ due < now ∧ t.status ≠ "Overdue"
    · have h1 : markOverdue now t = { t with
          status := "Overdue",
          logs := t.logs ++ [⟨now, "Auto-marked overdue on startup"⟩] } := by
        simp [markOverdue, hdue, hc]
      rw [h1]
      simp [markOverdue, hdue]
    · have h1 : markOverdue now t = t := by
        simp only [markOverdue, hdue]
        rw [if_neg hc]
      rw [h1, h1]

lemma markOverdue_untouched {now : Int} {t : Task}
    (h : t.due = none ∨ t.status = "Done" ∨ t.status = "Overdue") :
    markOverdue now t = t := by
  rcases h with h | h | h
  · simp [markOverdue, h]
  · match hdue : t.due with
    | none => simp [markOverdue, hdue]
    | some due =>
      simp only [markOverdue, hdue]
      rw [if_neg (by rintro ⟨h1, _, _⟩; exact h1 h)]
  · match hdue : t.due with
    | none => simp [markOverdue, hdue]
    | some due =>
      simp only [markOverdue, hdue]
      rw [if_neg (by rintro ⟨_, _, h3⟩; exact h3 h)]

lemma scanWindows_sent_mono {due now : Int} {k : String} :
    ∀ (ws : List (String × Nat)) (t : Task), k ∈ t.remindersSent →
      k ∈ (scanWindows due now ws t).1.remindersSent
  | [], t, h => h
  | (key, mins) :: ws, t, h => by
    rw [scanWindows]
    by_cases h1 : key ∈ t.remindersSent
    · rw [if_pos h1]
      exact scanWindows_sent_mono ws t h
    · rw [if_neg h1]
      by_cases h2 : 0 < due - now ∧ due - now ≤ (mins : Int) * 60000
      · rw [if_pos h2]
        exact scanWindows_sent_mono ws (firedTask t key now)
          (by
            show k ∈ t.remindersSent ++ [key]
            exact List.mem_append_left _ h)
      · rw [if_neg h2]
        exact scanWindows_sent_mono ws t h

lemma scanWindows_fired_recorded {due now : Int} {k : String} :
    ∀ (ws : List (String × Nat)) (t : Task),
      k ∈ (scanWindows due now ws t).2 →
      k ∈ (scanWindows due now ws t).1.remindersSent
  | [], t, h => absurd h (List.not_mem_nil k)
  | (key, mins) :: ws, t, h => by
    rw [scanWindows] at h ⊢
    by_cases h1 : key ∈ t.remindersSent
    · rw [if_pos h1] at h ⊢
      exact scanWindows_fired_recorded ws t h
    · rw [if_neg h1] at h ⊢
      by_cases h2 : 0 < due - now ∧ due - now ≤ (mins : Int) * 60000
      · rw [if_pos h2] at h ⊢
        rcases List.mem_cons.mp h with rfl | h
        · exact scanWindows_sent_mono ws (firedTask t k now)
            (by
              show k ∈ t.remindersSent ++ [k]
              exact List.mem_append_right _ (List.mem_singleton_self k))
        · exact scanWindows_fired_recorded ws (firedTask t key now) h
      · rw [if_neg h2] at h ⊢
        exact scanWindows_fired_recorded ws t h

lemma scanWindows_no_refire {due now : Int} {k : String} :
    ∀ (ws : List (String × Nat)) (t : Task), k ∈ t.remindersSent →
      k ∉ (scanWindows due now ws t).2
  | [], t, h => List.not_mem_nil k
  | (key, mins) :: ws, t, h => by
    rw [scanWindows]
    by_cases h1 : key ∈ t.remindersSent
    · rw [if_pos h1]
      exact scanWindows_no_refire ws t h
    · rw [if_neg h1]
      by_cases h2 : 0 < due - now ∧ due - now ≤ (mins : Int) * 60000
      · rw [if_pos h2]
        intro hmem
        rcases List.mem_cons.mp hmem with rfl | hmem
        · exact h1 h
        · exact scanWindows_no_refire ws (firedTask t key now)
            (by
              show k ∈ t.remindersSent ++ [key]
              exact List.mem_append_left _ h) hmem
      · rw [if_neg h2]
        exact scanWindows_no_refire ws t h

lemma overdueStep_sent_mono {due now : Int} {k : String} {t : Task}
    (h : k ∈ t.remindersSent) : k ∈ (overdueStep due now t).1.remindersSent := by
  rw [overdueStep]
  by_cases hc : due - now < 0 ∧ "overdue" ∉ t.remindersSent
  · rw [if_pos hc]
    show k ∈ t.remindersSent ++ ["overdue"]
    exact List.mem_append_left _ h
  · rw [if_neg hc]
    exact h

lemma scanTask_fired_recorded {windows : List (String × Nat)} {now : Int}
    {t : Task} {k : String} (h : k ∈ (scanTask windows now t).2) :
    k ∈ (scanTask windows now t).1.remindersSent := by
  match hdue : t.due with
  | none =>
    simp only [scanTask, hdue] at h
    exact absurd h (List.not_mem_nil k)
  | some due =>
    simp only [scanTask, hdue] at h ⊢
    by_cases hdone : t.status = "Done"
    · rw [if_pos hdone] at h
      exact absurd h (List.not_mem_nil k)
    · rw [if_neg hdone] at h ⊢
      rcases List.mem_append.mp h with h | h
      · have hrec : k ∈ (overdueStep due now t).1.remindersSent := by
          rw [overdueStep] at h ⊢
          by_cases hc : due - now < 0 ∧ "overdue" ∉ t.remindersSent
          · rw [if_pos hc] at h ⊢
            rw [List.mem_singleton.mp h]
            show "overdue" ∈ t.remindersSent ++ ["overdue"]
            exact List.mem_append_right _ (List.mem_singleton_self _)
          · rw [if_neg hc] at h
            exact absurd h (List.not_mem_nil k)
        exact scanWindows_sent_mono windows _ hrec
      · exact scanWindows_fired_recorded windows _ h

lemma scanTask_no_refire {windows : List (String × Nat)} {now : Int}
    {t : Task} {k : String} (h : k ∈ t.remindersSent) :
    k ∉ (scanTask windows now t).2 := by
  match hdue : t.due with
  | none =>
    simp only [scanTask, hdue]
    exact List.not_mem_nil k
  | some due =>
    simp only [scanTask, hdue]
    by_cases hdone : t.status = "Done"
    · rw [if_pos hdone]
      exact List.not_mem_nil k
    · rw [if_neg hdone]
      intro hmem
      rcases List.mem_append.mp hmem with hm | hm
      · rw [overdueStep] at hm
        by_cases hc : due - now < 0 ∧ "overdue" ∉ t.remindersSent
        · rw [if_pos hc] at hm
          rw [List.mem_singleton.mp hm] at h
          exact hc.2 h
        · rw [if_neg hc] at hm
          exact absurd hm (List.not_mem_nil k)
      · exact scanWindows_no_refire windows _ (overdueStep_sent_mono h) hm

lemma storeGet_scanStore {windows : List (String × Nat)} {now : Int}
    {store : Store} {uid : String} :
    storeGet (scanStore windows now store) uid =
      (storeGet store uid).map (fun t => (scanTask windows now t).1) := by
  induction store with
  | nil => rfl
  | cons hd rest ih =>
    obtain ⟨u, l⟩ := hd
    by_cases hu : u = uid
    · rw [scanStore, List.map_cons, storeGet, if_pos hu, storeGet, if_pos hu]
    · rw [scanStore, List.map_cons, storeGet, if_neg hu, storeGet, if_neg hu]
      exact ih

end Zans

/-- Claim C2, counterexample: The claim's no-suffix clause fails: the duration
parser maps the suffixless window string `"30"` to 1800 minutes (it scales a
suffixless magnitude by 60, treating it as hours), not to 30 minutes. -/
theorem C2_counterexample_no_suffix_is_not_minutes :
    Zans.parseWindowToMinutes "30" = some 1800 ∧
    Zans.parseWindowToMinutes "30" ≠ some 30 := by
  constructor
  · rfl
  · decide

/-- Claim C2, amended: For a reminder-window string consisting of a non-empty
run of decimal digits, the duration parser maps trailing suffix `d` to
magnitude·1440 minutes, `h` to magnitude·60, `m` to the bare magnitude, and a
string with no suffix to magnitude·60 (i.e. a suffixless window is treated as
hours, not as minutes). -/
theorem C2_parseWindow_suffix_dispatch (ds : List Char) (hne : ds ≠ [])
    (hds : ∀ x ∈ ds, x.isDigit = true) :
    Zans.parseWindowToMinutes ⟨ds ++ ['d']⟩ = some (Zans.digitsVal ds * 1440) ∧
    Zans.parseWindowToMinutes ⟨ds ++ ['h']⟩ = some (Zans.digitsVal ds * 60) ∧
    Zans.parseWindowToMinutes ⟨ds ++ ['m']⟩ = some (Zans.digitsVal ds) ∧
    Zans.parseWindowToMinutes ⟨ds⟩ = some (Zans.digitsVal ds * 60) := by
  have hap : ∀ c : Char, ¬((⟨ds ++ [c]⟩ : String).data.isEmpty = true) := by
    intro c h
    cases ds with
    | nil => exact absurd rfl hne
    | cons x xs => exact Bool.noConfusion h
  have hbare : ¬((⟨ds⟩ : String).data.isEmpty = true) := by
    intro h
    cases ds with
    | nil => exact absurd rfl hne
    | cons x xs => exact Bool.noConfusion h
  have hnorm : ∀ c : Char, c.isWhitespace = false → c.toLower = c →
      Zans.jsToLower (Zans.jsTrim (ds ++ [c])) = ds ++ [c] :=
    fun c hw hl => Zans.normalize_digits_suffix hds hw hl
  have hlead : ∀ c : Char, c.isDigit = false →
      Zans.parseNatLead (ds ++ [c]) = some (Zans.digitsVal ds) :=
    fun c hc => Zans.parseNatLead_digits_suffix hne hds hc
  refine ⟨?_, ?_, ?_, ?_⟩
  · rw [Zans.parseWindowToMinutes, if_neg (hap 'd'), hnorm 'd' (by decide) (by decide),
      Zans.parseWindowCore, Zans.endsWithChar_append,
      if_neg (by decide : ¬(('d' == 'h') = true))]
    rw [Zans.endsWithChar_append, if_neg (by decide : ¬(('d' == 'm') = true))]
    rw [Zans.endsWithChar_append, if_pos (by decide : ('d' == 'd') = true)]
    rw [hlead 'd' (by decide)]
    show some (Zans.digitsVal ds * 60 * 24) = some (Zans.digitsVal ds * 1440)
    rw [Nat.mul_assoc]
  · rw [Zans.parseWindowToMinutes, if_neg (hap 'h'), hnorm 'h' (by decide) (by decide),
      Zans.parseWindowCore, Zans.endsWithChar_append,
      if_pos (by decide : (('h' == 'h') = true))]
    rw [hlead 'h' (by decide)]
    rfl
  · rw [Zans.parseWindowToMinutes, if_neg (hap 'm'), hnorm 'm' (by decide) (by decide),
      Zans.parseWindowCore, Zans.endsWithChar_append,
      if_neg (by decide : ¬(('m' == 'h') = true))]
    rw [Zans.endsWithChar_append, if_pos (by decide : ('m' == 'm') = true)]
    exact hlead 'm' (by decide)
  · rw [Zans.parseWindowToMinutes, if_neg hbare]
    have hdata : (⟨ds⟩ : String).data = ds := rfl
    rw [hdata,
      Zans.jsTrim_eq_self (fun c hc => Zans.isWhitespace_eq_false_of_isDigit (hds c hc)),
      Zans.jsToLower_eq_self (fun c hc => Zans.toLower_of_isDigit (hds c hc)),
      Zans.parseWindowCore,
      Zans.endsWithChar_digits hne hds (by decide),
      Zans.endsWithChar_digits hne hds (by decide),
      Zans.endsWithChar_digits hne hds (by decide)]
    simp only [Bool.false_eq_true, if_false]
    rw [show Zans.parseNatLead ds = some (Zans.digitsVal ds) by
      unfold Zans.parseNatLead
      rw [Zans.takeWhile_eq_self_of_true hds]
      simp [List.isEmpty_iff, hne]]
    rfl

/-- Claim C2, witness: The amended dispatch evaluated at the concrete magnitude
`30`: `30d → 43200`, `30h → 1800`, `30m → 30`, `30 → 1800`. -/
theorem C2_parseWindow_suffix_dispatch_witness :
    Zans.parseWindowToMinutes ⟨['3', '0'] ++ ['d']⟩ = some (Zans.digitsVal ['3', '0'] * 1440) ∧
    Zans.parseWindowToMinutes ⟨['3', '0'] ++ ['h']⟩ = some (Zans.digitsVal ['3', '0'] * 60) ∧
    Zans.parseWindowToMinutes ⟨['3', '0'] ++ ['m']⟩ = some (Zans.digitsVal ['3', '0']) ∧
    Zans.parseWindowToMinutes ⟨['3', '0']⟩ = some (Zans.digitsVal ['3', '0'] * 60) :=
  C2_parseWindow_suffix_dispatch ['3', '0'] (by decide) (by decide)

/-- Claim C8:`getAllTasksUnique` returns exactly one entry per distinct task id
present in any assignee's collection: its ids are duplicate-free, an id occurs
in the output iff it occurs somewhere in the store, and the output is exactly
the subsequence of first occurrences (in scan order) of the flattened store —
so the surviving entry of a task assigned to several users is tagged with the
assignee whose collection was scanned first. -/
theorem C8_uniqueAll_dedups_by_first_occurrence (store : Zans.Store) :
    ((Zans.getAllTasksUnique store).map (fun p => p.2.id)).Nodup ∧
    (∀ i : Nat, (∃ p ∈ Zans.getAllTasksUnique store, p.2.id = i) ↔
      (∃ p ∈ Zans.flattenStore store, p.2.id = i)) ∧
    Zans.getAllTasksUnique store = Zans.firstOccurrences (Zans.flattenStore store) := by
  refine ⟨?_, ?_, ?_⟩
  · rw [Zans.getAllTasksUnique, Zans.uniqueAux_eq_firstOccurrences]
    exact Zans.firstOccurrences_ids_nodup _
  · intro i
    rw [Zans.getAllTasksUnique, Zans.uniqueAux_eq_firstOccurrences]
    exact Zans.firstOccurrences_mem_ids _ i
  · exact Zans.uniqueAux_eq_firstOccurrences _

/-- Claim C5, counterexample: the claim's scoring is wrong about the character
bonus: the code awards one point per query character occurrence (so the query
`"aab"` gives a title containing `a` two bonus points), not one point per
distinct query character.  On a store holding a task titled `"xb"` before a
task titled `"xa"`, the code ranks `"xa"` (score 2) above `"xb"` (score 1),
while the claim's distinct-character scoring ties them (1 = 1) and its stable
sort keeps `"xb"` first. -/
theorem C5_counterexample_distinct_char_bonus :
    Zans.fuzzySearchTasks "aab" 5
        [("u", [Zans.mkTask 1 "xb" "" "u", Zans.mkTask 2 "xa" "" "u"])] ≠
      Zans.fuzzySearchSpecClaim "aab" 5
        [("u", [Zans.mkTask 1 "xb" "" "u", Zans.mkTask 2 "xa" "" "u"])] := by
  decide

/-- Claim C5, amended: `fuzzySearchTasks` equals the claim's pipeline — score
each unique task (+100 exact lowercased-title match, +50 title substring, +20
description substring, plus one point per query character occurrence whose
character appears in the title), keep only positive scores, stable-sort
descending by score (ties in original scan order), truncate to the limit —
and, in particular, on otherwise equal inputs an exact-title match ranks above
a substring-title match, which ranks above a description-only match, as the
concrete conjunct shows on tasks scanned in the opposite order. -/
theorem C5_fuzzySearch_pipeline :
    (∀ (query : String) (limit : Nat) (store : Zans.Store),
      Zans.fuzzySearchTasks query limit store =
        Zans.fuzzySearchSpecAmended query limit store) ∧
    (Zans.fuzzySearchTasks "foo" 5
        [("u1", [Zans.mkTask 1 "zz" "foo" "u1"]),
         ("u2", [Zans.mkTask 2 "xfoo" "" "u2"]),
         ("u3", [Zans.mkTask 3 "foo" "" "u3"])]).map (fun p => p.2.id) =
      [3, 2, 1] := by
  constructor
  · intro query limit store
    unfold Zans.fuzzySearchTasks Zans.fuzzySearchSpecAmended
    have hsc : ∀ (q : List Char) (t : Zans.Task),
        Zans.scoreTask q t = Zans.amendedScore q t := by
      intro q t
      simp only [Zans.scoreTask, Zans.amendedScore, List.countP_eq_length_filter]
    simp only [hsc]
  · decide

/-- Claim C3: for every privileged assign invocation, the resolved assignee
set of a successfully created task is the deduplicated union of the explicit
user ids and the members of the named department when that department exists
(no duplicate identifiers, membership exactly the union), and when that
resolved set is empty the handler fails with `EmptyAssignment` and the store —
hence every assignee's collection — is unchanged. -/
theorem C3_assign_resolves_dedup_union (priv : Bool)
    (username title description : String)
    (due : Option Int) (department : Option String) (users : List String)
    (departments : Zans.Departments) (id : Nat) (now : Int) (store : Zans.Store)
    (hpriv : priv = true) :
    (∀ store' t,
      Zans.taskAssign priv username title description due department users
          departments id now store = (store', Except.ok t) →
        t.assignedTo.Nodup ∧
        (∀ x, x ∈ t.assignedTo ↔
          (x ∈ users ∨ ∃ d ∈ department, ∃ ms ∈ Zans.deptLookup departments d, x ∈ ms))) ∧
    ((users = [] ∧ (Zans.deptExtra department departments).1 = []) →
      Zans.taskAssign priv username title description due department users
          departments id now store = (store, Except.error Zans.Err.emptyAssignment)) := by
  subst hpriv
  constructor
  · intro store' t heq
    rw [show Zans.taskAssign true username title description due department users
          departments id now store =
        Zans.taskAssignCore username title description due
          (Zans.jsSetDedup (users ++ (Zans.deptExtra department departments).1))
          (Zans.deptExtra department departments).2 id now store from rfl] at heq
    rw [Zans.taskAssignCore] at heq
    by_cases hemp :
        (Zans.jsSetDedup (users ++ (Zans.deptExtra department departments).1)).isEmpty = true
    · rw [if_pos hemp] at heq
      exact absurd (congrArg Prod.snd heq) (by simp)
    · rw [if_neg hemp] at heq
      have ht : t = Zans.assignedTask username title description due
          (Zans.jsSetDedup (users ++ (Zans.deptExtra department departments).1))
          (Zans.deptExtra department departments).2 id now := by
        have h2 := congrArg Prod.snd heq
        simp only at h2
        exact (Except.ok.inj h2).symm
      rw [ht]
      refine ⟨Zans.nodup_jsSetDedup _, fun x => ?_⟩
      show x ∈ Zans.jsSetDedup (users ++ (Zans.deptExtra department departments).1) ↔ _
      rw [Zans.mem_jsSetDedup, List.mem_append, Zans.mem_deptExtra]
  · rintro ⟨hu, hd⟩
    subst hu
    rw [show Zans.taskAssign true username title description due department []
          departments id now store =
        Zans.taskAssignCore username title description due
          (Zans.jsSetDedup ([] ++ (Zans.deptExtra department departments).1))
          (Zans.deptExtra department departments).2 id now store from rfl]
    rw [List.nil_append, hd]
    rfl

/-- Claim C3, witness: assigning with no explicit users and a department name
that is not registered resolves to the empty assignee set and fails with
`EmptyAssignment`, leaving the store unchanged. -/
theorem C3_assign_witness :
    Zans.taskAssign true "alice" "t" "" none (some "ghost") [] [] 7 0
        [("bob", [])] =
      ([("bob", [])], Except.error Zans.Err.emptyAssignment) :=
  (C3_assign_resolves_dedup_union true "alice" "t" "" none (some "ghost") [] [] 7 0
      [("bob", [])] rfl).2 ⟨rfl, rfl⟩

/-- Claim C4: for `/task-update` resolved by positional index, an index
outside `[1, N]` (own list for a non-privileged caller, global deduplicated
list for a privileged caller) fails with `NotFound` and the store is
unchanged; a non-privileged caller not contained in the resolved task's
assignee set fails with `Forbidden`; a status outside the five recognized
values fails with `InvalidStatus`; and on success exactly one log entry
recording the actor and the new status is appended and the mutated record is
written back at the exact `(assignee, position)` coordinate it was resolved
from. -/
theorem C4_update_errors_and_success (priv : Bool) (userId username : String)
    (id? : Option Nat) (index? : Option Int) (n : Int) (status : String)
    (now : Int) (store : Zans.Store) :
    ((n < 1 ∨ n > ((Zans.storeGet store userId).length : Int)) →
      Zans.taskUpdate false userId username none (some n) status now store =
        (store, Except.error Zans.Err.notFound)) ∧
    (n ≠ 0 → (n < 1 ∨ n > ((Zans.getAllTasksUnique store).length : Int)) →
      Zans.taskUpdate true userId username none (some n) status now store =
        (store, Except.error Zans.Err.notFound)) ∧
    (∀ uid i t,
      Zans.resolveTarget false userId id? index? store = Except.ok (uid, i, t) →
      userId ∉ t.assignedTo →
      Zans.taskUpdate false userId username id? index? status now store =
        (store, Except.error Zans.Err.forbidden)) ∧
    (∀ uid i t,
      Zans.resolveTarget priv userId id? index? store = Except.ok (uid, i, t) →
      (priv = true ∨ userId ∈ t.assignedTo) → status ∉ Zans.validStatuses →
      Zans.taskUpdate priv userId username id? index? status now store =
        (store, Except.error Zans.Err.invalidStatus)) ∧
    (∀ uid i t,
      Zans.resolveTarget priv userId id? index? store = Except.ok (uid, i, t) →
      (priv = true ∨ userId ∈ t.assignedTo) → status ∈ Zans.validStatuses →
      Zans.taskUpdate priv userId username id? index? status now store =
        (Zans.storeSetAt store uid i (Zans.updatedTask t status username now),
          Except.ok ()) ∧
      (Zans.updatedTask t status username now).status = status ∧
      (Zans.updatedTask t status username now).logs =
        t.logs ++ [⟨now, "Status set to " ++ status ++ " by " ++ username⟩]) := by
  refine ⟨?_, ?_, ?_, ?_, ?_⟩
  · intro hr
    refine Zans.taskUpdate_error ?_
    simp [Zans.resolveTarget, hr]
  · intro hn hr
    refine Zans.taskUpdate_error ?_
    simp [Zans.resolveTarget, Zans.truthyIndex, hn, hr]
  · intro uid i t hres hmem
    rw [Zans.taskUpdate_resolved hres, if_pos ⟨rfl, hmem⟩]
  · intro uid i t hres hperm hstat
    rw [Zans.taskUpdate_resolved hres]
    rw [if_neg (by
      rintro ⟨h1, h2⟩
      rcases hperm with hp | hp
      · rw [hp] at h1; exact Bool.noConfusion h1
      · exact h2 hp)]
    rw [if_pos hstat]
  · intro uid i t hres hperm hstat
    rw [Zans.taskUpdate_resolved hres]
    rw [if_neg (by
      rintro ⟨h1, h2⟩
      rcases hperm with hp | hp
      · rw [hp] at h1; exact Bool.noConfusion h1
      · exact h2 hp)]
    rw [if_neg (fun h => h hstat)]
    exact ⟨rfl, rfl, rfl⟩

/-- Claim C4, witness: on a store where user `u` owns a single task, index 2
(= N+1) fails with `NotFound` and index 0 fails with `NotFound`, leaving the
store unchanged. -/
theorem C4_update_errors_witness :
    Zans.taskUpdate false "u" "u" none (some 2) "Done" 0
        [("u", [Zans.mkTask 1 "a" "" "u"])] =
      ([("u", [Zans.mkTask 1 "a" "" "u"])], Except.error Zans.Err.notFound) ∧
    Zans.taskUpdate false "u" "u" none (some 0) "Done" 0
        [("u", [Zans.mkTask 1 "a" "" "u"])] =
      ([("u", [Zans.mkTask 1 "a" "" "u"])], Except.error Zans.Err.notFound) :=
  ⟨(C4_update_errors_and_success false "u" "u" none (some 2) 2 "Done" 0
      [("u", [Zans.mkTask 1 "a" "" "u"])]).1 (by decide),
   (C4_update_errors_and_success false "u" "u" none (some 0) 0 "Done" 0
      [("u", [Zans.mkTask 1 "a" "" "u"])]).1 (by decide)⟩

/-- Claim C9: an update resolved by task id mutates and writes back only the
single first-found copy: every other assignee's collection is left untouched,
and within the first-found assignee's collection every other position is left
untouched — so a sibling copy of the same task (as stored after a persistence
round-trip for a multi-assignee task) keeps its previous status and logs. -/
theorem C9_update_by_id_frames_other_copies (priv : Bool)
    (userId username : String) (tid : Nat) (index? : Option Int)
    (status : String) (now : Int) (store : Zans.Store) (uid : String) (i : Nat)
    (t : Zans.Task) (hfind : Zans.findTaskById store tid = some (uid, i, t))
    (hperm : priv = true ∨ userId ∈ t.assignedTo)
    (hstat : status ∈ Zans.validStatuses) :
    (∀ uid', uid' ≠ uid →
      Zans.storeGet
          (Zans.taskUpdate priv userId username (some tid) index? status now
            store).1 uid' =
        Zans.storeGet store uid') ∧
    (∀ j, j ≠ i →
      Zans.taskAt?
          (Zans.taskUpdate priv userId username (some tid) index? status now
            store).1 uid j =
        Zans.taskAt? store uid j) := by
  have hres : Zans.resolveTarget priv userId (some tid) index? store =
      Except.ok (uid, i, t) := by
    simp [Zans.resolveTarget, hfind]
  have hupd : Zans.taskUpdate priv userId username (some tid) index? status now
      store =
      (Zans.storeSetAt store uid i (Zans.updatedTask t status username now),
        Except.ok ()) := by
    rw [Zans.taskUpdate_resolved hres]
    rw [if_neg (by
      rintro ⟨h1, h2⟩
      rcases hperm with hp | hp
      · rw [hp] at h1; exact Bool.noConfusion h1
      · exact h2 hp)]
    rw [if_neg (fun h => h hstat)]
  rw [hupd]
  constructor
  · intro uid' hne
    exact Zans.storeGet_storeSetAt_ne hne
  · intro j hne
    rw [Zans.taskAt?, Zans.taskAt?, Zans.storeGet_storeSetAt_self]
    exact List.getElem?_set_ne (fun e => hne e.symm)

/-- Claim C9, witness: with task id 5 stored as value copies in both `u1`'s
and `u2`'s collections, updating by id mutates only `u1`'s copy; `u2`'s
collection is unchanged. -/
theorem C9_update_by_id_frames_witness :
    Zans.storeGet
        (Zans.taskUpdate true "boss" "boss" (some 5) none "Done" 0
          [("u1", [Zans.mkTask 5 "a" "" "u1"]),
           ("u2", [Zans.mkTask 5 "a" "" "u1"])]).1 "u2" =
      [Zans.mkTask 5 "a" "" "u1"] :=
  (C9_update_by_id_frames_other_copies true "boss" "boss" 5 none "Done" 0
      [("u1", [Zans.mkTask 5 "a" "" "u1"]),
       ("u2", [Zans.mkTask 5 "a" "" "u1"])] "u1" 0 (Zans.mkTask 5 "a" "" "u1")
      (by decide) (Or.inl rfl) (by decide)).1 "u2" (by decide)

/-- Claim C6: the start-up reconciliation pass sets every past-due task whose
status is neither `Done` nor `Overdue` to `Overdue` with exactly one appended
`Auto-marked overdue on startup` log entry, leaves tasks with no due date,
status `Done`, or status already `Overdue` entirely unchanged, and is
idempotent: reconciling the reconciled store changes nothing (so no second
entry is ever appended). -/
theorem C6_startup_reconcile_idempotent (now : Int) (store : Zans.Store)
    (t : Zans.Task) (due : Int) :
    (t.due = some due → due < now → t.status ≠ "Done" → t.status ≠ "Overdue" →
      (Zans.markOverdue now t).status = "Overdue" ∧
      (Zans.markOverdue now t).logs =
        t.logs ++ [⟨now, "Auto-marked overdue on startup"⟩]) ∧
    ((t.due = none ∨ t.status = "Done" ∨ t.status = "Overdue") →
      Zans.markOverdue now t = t) ∧
    Zans.startupReconcile now (Zans.startupReconcile now store) =
      Zans.startupReconcile now store := by
  refine ⟨?_, Zans.markOverdue_untouched, ?_⟩
  · intro hdue hlt hdone hover
    have h1 : Zans.markOverdue now t = { t with
        status := "Overdue",
        logs := t.logs ++ [⟨now, "Auto-marked overdue on startup"⟩] } := by
      simp [Zans.markOverdue, hdue, hdone, hlt, hover]
    rw [h1]
    exact ⟨rfl, rfl⟩
  · unfold Zans.startupReconcile
    rw [List.map_map]
    apply List.map_congr_left
    intro p _
    show (p.1, (p.2.map (Zans.markOverdue now)).map (Zans.markOverdue now)) =
      (p.1, p.2.map (Zans.markOverdue now))
    rw [List.map_map]
    exact congrArg _ (List.map_congr_left fun t _ => Zans.markOverdue_idem now t)

/-- Claim C6, witness: a `Pending` task due at time −5 is auto-marked
`Overdue` at start-up time 0 with the log entry appended. -/
theorem C6_startup_reconcile_witness :
    (Zans.markOverdue 0
        { Zans.mkTask 1 "a" "" "u" with due := some (-5) }).status = "Overdue" ∧
    (Zans.markOverdue 0
        { Zans.mkTask 1 "a" "" "u" with due := some (-5) }).logs =
      (Zans.mkTask 1 "a" "" "u").logs ++
        [⟨0, "Auto-marked overdue on startup"⟩] :=
  (C6_startup_reconcile_idempotent 0 []
      { Zans.mkTask 1 "a" "" "u" with due := some (-5) } (-5)).1
    rfl (by decide) (by decide) (by decide)

/-- Claim C7, counterexample: with retention N = 2 and N + K = 3 writes
(K = 1), exactly N = 2 backups remain — but they are the two most recent
files, not "the K most recent ones" as the claim words it (the K = 1 most
recent would be just the last file). -/
theorem C7_counterexample_remaining_count :
    Zans.runBackups 2 [1, 2, 3] = [2, 3] ∧
    Zans.runBackups 2 [1, 2, 3] ≠ [1, 2, 3].drop (3 - 1) := by
  constructor
  · decide
  · decide

/-- Claim C7, amended: for every retention `keep` and chronologically
increasing sequence of backup names, the backup step leaves exactly the last
`min(total, keep)` names — after `keep + K` writes exactly `keep` backups
remain and they are the `keep` (not `K`) most recent ones. -/
theorem C7_backup_retention_keeps_newest (keep : Nat) (names : List Nat)
    (hsorted : names.Sorted (· < ·)) :
    Zans.runBackups keep names = names.drop (names.length - keep) ∧
    (keep ≤ names.length → (Zans.runBackups keep names).length = keep) := by
  have hmain : ∀ (ns : List Nat), ns.Sorted (· < ·) →
      Zans.runBackups keep ns = ns.drop (ns.length - keep) := by
    intro ns
    induction ns using List.reverseRecOn with
    | nil =>
      intro _
      rw [List.length_nil, Nat.zero_sub, List.drop_zero]
      rfl
    | append_singleton ms m ih =>
      intro hsort
      have hms : ms.Sorted (· < ·) :=
        List.Pairwise.sublist (List.sublist_append_left ms [m]) hsort
      have hlt : ∀ x ∈ ms, x < m := by
        intro x hx
        exact (List.pairwise_append.mp hsort).2.2 x hx m (List.mem_singleton_self m)
      have hstep : Zans.runBackups keep (ms ++ [m]) =
          Zans.backupStep keep (Zans.runBackups keep ms) m := by
        rw [Zans.runBackups, Zans.runBackups, List.foldl_append]
        rfl
      rw [hstep, ih hms]
      have hsub : (ms.drop (ms.length - keep)).Sublist ms := List.drop_sublist _ _
      have hslen : (ms.drop (ms.length - keep)).length =
          ms.length - (ms.length - keep) := List.length_drop _ _
      by_cases hbig : ms.length + 1 ≤ keep
      · have hzero : ms.length - keep = 0 := by omega
        rw [hzero, List.drop_zero]
        rw [Zans.backupStep,
          if_neg (by rw [List.length_append]; simp; omega)]
        have hz2 : ms.length + 1 - keep = 0 := by omega
        rw [List.length_append, List.length_singleton, hz2, List.drop_zero]
      · have hkle : keep ≤ ms.length := by omega
        have hsl : (ms.drop (ms.length - keep)).length = keep := by omega
        rw [Zans.backupStep, if_pos (by
          rw [List.length_append, List.length_singleton, hsl]
          omega)]
        have hsorted_app :
            ((ms.drop (ms.length - keep)) ++ [m]).Sorted (· ≤ ·) := by
          apply List.pairwise_append.mpr
          refine ⟨(List.Pairwise.sublist hsub hms).imp (fun h => le_of_lt h),
            List.pairwise_singleton _ _, ?_⟩
          intro x hx y hy
          rw [List.mem_singleton] at hy
          rw [hy]
          exact le_of_lt (hlt x (hsub.subset hx))
        rw [List.Sorted.insertionSort_eq hsorted_app]
        have hse : (ms.drop (ms.length - keep)) ++ [m] =
            (ms ++ [m]).drop (ms.length - keep) :=
          (List.drop_append_of_le_length (Nat.sub_le _ _)).symm
        rw [hse, List.drop_drop]
        congr 1
        simp only [List.length_drop, List.length_append, List.length_singleton]
        omega
  refine ⟨hmain names hsorted, fun hle => ?_⟩
  rw [hmain names hsorted, List.length_drop]
  omega

/-- Claim C7, witness: retention 2 with three chronological writes keeps
exactly the two most recent backups. -/
theorem C7_backup_retention_witness :
    Zans.runBackups 2 [1, 2, 3] = [1, 2, 3].drop (3 - 2) ∧
    (2 ≤ 3 → (Zans.runBackups 2 [1, 2, 3]).length = 2) := by
  have h := C7_backup_retention_keeps_newest 2 [1, 2, 3] (by decide)
  exact ⟨h.1, fun _ => h.2 (by decide)⟩

/-- Claim C10: a due string the date parser rejects is treated the same as an
absent due: `parseDue` returns `null` rather than failing, `task-create`
still succeeds (pushing the new task onto the creator's collection), and the
resulting no-due task is excluded from all reminder processing — a scan at any
time with any windows leaves it unchanged and fires nothing. -/
theorem C10_invalid_due_behaves_as_absent (parse : String → Option Int)
    (s : String) (userId username title description : String) (id : Nat)
    (now : Int) (store : Zans.Store) (hparse : parse s = none) :
    Zans.parseDue parse (some s) = none ∧
    Zans.taskCreate userId username title description
        (Zans.parseDue parse (some s)) id now store =
      (Zans.storePush store userId
          (Zans.createdTask userId username title description none id now),
        Zans.createdTask userId username title description none id now) ∧
    (∀ windows now', Zans.scanTask windows now'
        (Zans.createdTask userId username title description none id now) =
      (Zans.createdTask userId username title description none id now, [])) := by
  have hdue : Zans.parseDue parse (some s) = none := by
    show (if s.data.isEmpty then none else parse s) = none
    by_cases he : s.data.isEmpty
    · rw [if_pos he]
    · rw [if_neg he]
      exact hparse
  refine ⟨hdue, ?_, fun windows now' => rfl⟩
  rw [hdue]
  rfl


/-- Claim C10, witness: creating a task with the unparseable due string
`"soonish"` (the runtime date parser rejects it) succeeds with `due = null`
and the task is ignored by a reminder scan. -/
theorem C10_invalid_due_witness :
    Zans.parseDue (fun _ => none) (some "soonish") = none ∧
    Zans.taskCreate "u" "u" "t" ""
        (Zans.parseDue (fun _ => none) (some "soonish")) 1 0 [] =
      (Zans.storePush [] "u" (Zans.createdTask "u" "u" "t" "" none 1 0),
        Zans.createdTask "u" "u" "t" "" none 1 0) :=
  ⟨(C10_invalid_due_behaves_as_absent (fun _ => none) "soonish" "u" "u" "t" ""
      1 0 [] rfl).1,
   (C10_invalid_due_behaves_as_absent (fun _ => none) "soonish" "u" "u" "t" ""
      1 0 [] rfl).2.1⟩

/-- Claim C1, counterexample: assigning one task (id 1, due 30 minutes ahead)
to two users stores one value copy in each assignee's collection — exactly the
persisted state a save/reload round-trip yields — and a single scan cycle with
window `1h` then fires the `(task 1, "1h")` pair twice, once per stored copy:
the at-most-once guarantee does not hold for the logical task. -/
theorem C1_counterexample_multi_assignee_double_fire :
    Zans.cycleFired [("1h", 60)] 0
        (Zans.taskAssign true "boss" "T" "" (some 1800000) none ["u1", "u2"]
          [] 1 0 []).1 =
      [(1, "1h"), (1, "1h")] := by
  decide

/-- Claim C1, amended: the at-most-once guarantee holds per stored task entry,
not per logical task: scanning maps every stored entry through `scanTask` in
place; every threshold key fired for an entry is recorded in that entry's
`remindersSent`; a key already recorded is never fired again for that entry;
and hence a key fired in one cycle is not fired for the resulting entry in any
later cycle (at any later time).  A multi-assignee task whose copies are
value-independent (as after a persistence round-trip) fires once per copy. -/
theorem C1_reminder_at_most_once_per_entry (windows : List (String × Nat))
    (now now' : Int) (store : Zans.Store) (uid : String) (i : Nat)
    (t : Zans.Task) (k : String)
    (hat : Zans.taskAt? store uid i = some t) :
    Zans.taskAt? (Zans.scanStore windows now store) uid i =
      some (Zans.scanTask windows now t).1 ∧
    (k ∈ (Zans.scanTask windows now t).2 →
      k ∈ (Zans.scanTask windows now t).1.remindersSent) ∧
    (k ∈ t.remindersSent → k ∉ (Zans.scanTask windows now t).2) ∧
    (k ∈ (Zans.scanTask windows now t).2 →
      k ∉ (Zans.scanTask windows now' (Zans.scanTask windows now t).1).2) := by
  refine ⟨?_, Zans.scanTask_fired_recorded, Zans.scanTask_no_refire,
    fun h => Zans.scanTask_no_refire (Zans.scanTask_fired_recorded h)⟩
  simp only [Zans.taskAt?] at hat ⊢
  rw [Zans.storeGet_scanStore, List.getElem?_map, hat]
  rfl

/-- Claim C1, witness: a task due 30 minutes ahead with window `1h` fires the
`"1h"` reminder once; the key is recorded in the scanned entry and a second
scan cycle (before or after the due time) does not fire it again for that
entry. -/
theorem C1_reminder_at_most_once_witness :
    Zans.taskAt?
        (Zans.scanStore [("1h", 60)] 0
          [("u", [{ Zans.mkTask 1 "a" "" "u" with due := some 1800000 }])])
        "u" 0 =
      some (Zans.scanTask [("1h", 60)] 0
        { Zans.mkTask 1 "a" "" "u" with due := some 1800000 }).1 ∧
    ("1h" ∈ (Zans.scanTask [("1h", 60)] 0
        { Zans.mkTask 1 "a" "" "u" with due := some 1800000 }).2 →
      "1h" ∈ (Zans.scanTask [("1h", 60)] 0
        { Zans.mkTask 1 "a" "" "u" with due := some 1800000 }).1.remindersSent) ∧
    ("1h" ∈ (Zans.mkTask 1 "a" "" "u").remindersSent →
      "1h" ∉ (Zans.scanTask [("1h", 60)] 0
        { Zans.mkTask 1 "a" "" "u" with due := some 1800000 }).2) ∧
    ("1h" ∈ (Zans.scanTask [("1h", 60)] 0
        { Zans.mkTask 1 "a" "" "u" with due := some 1800000 }).2 →
      "1h" ∉ (Zans.scanTask [("1h", 60)] 600000
        (Zans.scanTask [("1h", 60)] 0
          { Zans.mkTask 1 "a" "" "u" with due := some 1800000 }).1).2) :=
  C1_reminder_at_most_once_per_entry [("1h", 60)] 0 600000
    [("u", [{ Zans.mkTask 1 "a" "" "u" with due := some 1800000 }])] "u" 0
    { Zans.mkTask 1 "a" "" "u" with due := some 1800000 } "1h" rfl
